import Mathlib

/-!
Verification of the free-list allocator in `src/memory/heap.rs`.

Two embeddings of the allocator are given.

* Model A (namespace `Heap`): the free list is represented by the list of
  `(address, size)` nodes reachable from `head` in chain order.  The four
  search strategies and `allocate`'s splitting / list surgery are translated
  function by function; the pointer updates `prev.next = ...` / `head = ...`
  become the list operations `set_succ` / replacement of the head chain.

* Model B (namespace `Heap.FreeListB`): a word-granular memory model in which
  headers and footers are stored at explicit byte addresses, exactly as the
  Rust code writes them, with every memory read and write in source order.
  This model exhibits the aliasing behaviour of the boundary-tag footers
  (an allocated block also carries a valid footer, which `deallocate`'s
  backward coalescing reads).  All loops take explicit fuel; `none` means
  the model ran out of fuel or read uninitialised memory, which never
  happens in the concrete executions below.

`usize` arithmetic is modelled on `Nat` with explicit wrapping modulo `2^64`
(`wadd`, `wsub`), matching release-mode Rust.
-/

namespace Heap

def W : Nat := 2 ^ 64

/-- `const ALIGN: usize = 8` -/
def ALIGN : Nat := 8

/-- `size_of::<FreeListNode>()`: `size: usize` (8 bytes) plus
`next: Option<*mut FreeListNode>` (16 bytes, discriminant + pointer). -/
def header_size : Nat := 24

/-- `size_of::<usize>()`, the footer slot. -/
def footer_size : Nat := 8

/-- `fn block_overhead() -> usize { size_of::<FreeListNode>() + size_of::<usize>() }` -/
def block_overhead : Nat := header_size + footer_size

/-- wrapping `usize` addition -/
def wadd (a b : Nat) : Nat := (a + b) % W

/-- wrapping `usize` subtraction (faithful for `a < W`) -/
def wsub (a b : Nat) : Nat := (a + (W - b % W)) % W

/-- `fn align_up(size: usize) -> usize { (size + ALIGN - 1) & !(ALIGN - 1) }`
(`!(ALIGN - 1)` on `usize` is `2^64 - ALIGN`). -/
def align_up (size : Nat) : Nat := wadd size (ALIGN - 1) &&& (W - ALIGN)

/-- the total block size computed by `allocate`:
`let total_size = aligned_payload + Self::block_overhead();` -/
def total_size (requested_size : Nat) : Nat :=
  wadd (align_up requested_size) block_overhead

/-- `enum HeapType` -/
inductive HeapType where
  | BestFit
  | WorstFit
  | FirstFit
  | NextFit

/-! ## Model A: the free list as the chain of `(address, size)` nodes -/

/-- A free-list node as seen through the chain: `(address, size)`. -/
abbrev NodeA := Nat × Nat

/-- Model A of `struct FreeList`: `nodes` is the chain of free nodes
reachable from `head` in `next` order. -/
structure FreeListA where
  nodes : List NodeA
  capacity : Nat
  heap_type : HeapType

/-- the scanning loop of `find_region_first_fit`: returns the current node
as soon as `node.size >= requested_size`, else advances with `prev = current`. -/
def find_go_first (req : Nat) : List NodeA → Option NodeA → Option NodeA × Option NodeA
  | [], _ => (none, none)
  | n :: rest, prev =>
    if req ≤ n.2 then (some n, prev) else find_go_first req rest (some n)

/-- `FreeList::find_region_first_fit`, including the up-front
`if requested_size >= self.capacity { return (None, None); }` guard. -/
def find_region_first_fit (fl : FreeListA) (requested_size : Nat) :
    Option NodeA × Option NodeA :=
  if fl.capacity ≤ requested_size then (none, none)
  else find_go_first requested_size fl.nodes none

/-- the scanning loop of `find_region_next_fit` (identical to the first-fit
loop in the source: the comment there admits it "behaves like FirstFit"). -/
def find_go_next (req : Nat) : List NodeA → Option NodeA → Option NodeA × Option NodeA
  | [], _ => (none, none)
  | n :: rest, prev =>
    if req ≤ n.2 then (some n, prev) else find_go_next req rest (some n)

/-- `FreeList::find_region_next_fit` -/
def find_region_next_fit (fl : FreeListA) (requested_size : Nat) :
    Option NodeA × Option NodeA :=
  if fl.capacity ≤ requested_size then (none, none)
  else find_go_next requested_size fl.nodes none

/-- the scanning loop of `find_region_best_fit`: track the smallest
`size >= requested_size`, updating only on a strictly smaller size. -/
def find_go_best (req : Nat) :
    List NodeA → Option NodeA → Option NodeA → Option NodeA →
    Option NodeA × Option NodeA
  | [], _, best, best_prev => (best, best_prev)
  | n :: rest, prev, best, best_prev =>
    if req ≤ n.2 then
      match best with
      | none => find_go_best req rest (some n) (some n) prev
      | some b =>
        if n.2 < b.2 then find_go_best req rest (some n) (some n) prev
        else find_go_best req rest (some n) best best_prev
    else find_go_best req rest (some n) best best_prev

/-- `FreeList::find_region_best_fit` -/
def find_region_best_fit (fl : FreeListA) (requested_size : Nat) :
    Option NodeA × Option NodeA :=
  if fl.capacity ≤ requested_size then (none, none)
  else find_go_best requested_size fl.nodes none none none

/-- the scanning loop of `find_region_worst_fit`: track the largest
`size >= requested_size`, updating only on a strictly larger size. -/
def find_go_worst (req : Nat) :
    List NodeA → Option NodeA → Option NodeA → Option NodeA →
    Option NodeA × Option NodeA
  | [], _, worst, worst_prev => (worst, worst_prev)
  | n :: rest, prev, worst, worst_prev =>
    if req ≤ n.2 then
      match worst with
      | none => find_go_worst req rest (some n) (some n) prev
      | some b =>
        if b.2 < n.2 then find_go_worst req rest (some n) (some n) prev
        else find_go_worst req rest (some n) worst worst_prev
    else find_go_worst req rest (some n) worst worst_prev

/-- `FreeList::find_region_worst_fit` -/
def find_region_worst_fit (fl : FreeListA) (requested_size : Nat) :
    Option NodeA × Option NodeA :=
  if fl.capacity ≤ requested_size then (none, none)
  else find_go_worst requested_size fl.nodes none none none

/-- the strategy dispatch inside `FreeList::allocate`
(`match self.heap_type { ... }`). -/
def find_region (fl : FreeListA) (requested_size : Nat) :
    Option NodeA × Option NodeA :=
  match fl.heap_type with
  | HeapType.FirstFit => find_region_first_fit fl requested_size
  | HeapType.BestFit => find_region_best_fit fl requested_size
  | HeapType.WorstFit => find_region_worst_fit fl requested_size
  | HeapType.NextFit => find_region_next_fit fl requested_size

/-- chain semantics of `(*prev_ptr).next = ...`: everything after the first
occurrence of `p` in the chain is replaced by `tail`. -/
def set_succ : List NodeA → NodeA → List NodeA → List NodeA
  | [], _, _ => []
  | m :: rest, p, tail => if m = p then m :: tail else m :: set_succ rest p tail

/-- chain semantics of reading `node.next`: the chain strictly after the
first occurrence of `n`. -/
def suffix_after : List NodeA → NodeA → List NodeA
  | [], _ => []
  | m :: rest, n => if m = n then rest else suffix_after rest n

/-- the relinking step of `allocate`
(`if let Some(prev_ptr) = prev { (*prev_ptr).next = ... } else { self.head = ... }`):
the chain continues with `tail` after `prev`, or `tail` becomes the whole
chain when `prev` is `None`. -/
def relink (nodes : List NodeA) (prev : Option NodeA) (tail : List NodeA) :
    List NodeA :=
  match prev with
  | some q => set_succ nodes q tail
  | none => tail

/-- `FreeList::allocate` in model A.  Returns
`(some (payload pointer, (address, recorded size) of the consumed block), fl')`
on success, `(none, fl)` on no-fit.  The recorded size is the value
`allocate` leaves in the consumed block's header and footer. -/
def FreeListA.allocate (fl : FreeListA) (requested_size : Nat) :
    Option (Nat × NodeA) × FreeListA :=
  let total := total_size requested_size
  match find_region fl total with
  | (none, _) => (none, fl)
  | (some n, prev) =>
    if wadd total block_overhead ≤ n.2 then
      -- split: `new_node_ptr = node + total_size`, size `node.size - total_size`,
      -- `next = node.next`; then `prev.next = Some(new_node)` or `head = Some(new_node)`
      let new_node : NodeA := (wadd n.1 total, wsub n.2 total)
      let nodes' := relink fl.nodes prev (new_node :: suffix_after fl.nodes n)
      (some (wadd n.1 header_size, (n.1, total)), { fl with nodes := nodes' })
    else
      -- use the entire block: `prev.next = node.next` or `head = node.next`
      let nodes' := relink fl.nodes prev (suffix_after fl.nodes n)
      (some (wadd n.1 header_size, (n.1, n.2)), { fl with nodes := nodes' })

/-! ## Model B: word-granular memory -/

/-- The managed memory: byte address of an 8-byte-aligned word slot ↦ the
word last written there (`none` = never written). -/
abbrev Mem := Nat → Option Nat

def mem_empty : Mem := fun _ => none

def mwrite (m : Mem) (a v : Nat) : Mem := fun x => if x = a then some v else m x

namespace FreeListB

/-- read `(*p).size` -/
def read_size (m : Mem) (p : Nat) : Option Nat := m p

/-- write `(*p).size` -/
def write_size (m : Mem) (p v : Nat) : Mem := mwrite m p v

/-- read `(*p).next` (discriminant word at `p+8`, pointer word at `p+16`) -/
def read_next (m : Mem) (p : Nat) : Option (Option Nat) :=
  match m (p + 8) with
  | some 0 => some none
  | some 1 =>
    match m (p + 16) with
    | some q => some (some q)
    | none => none
  | _ => none

/-- write `(*p).next` -/
def write_next (m : Mem) (p : Nat) : Option Nat → Mem
  | none => mwrite m (p + 8) 0
  | some q => mwrite (mwrite m (p + 8) 1) (p + 16) q

/-- `node_ptr.write(FreeListNode::new(size, next))` -/
def write_node (m : Mem) (p size : Nat) (next : Option Nat) : Mem :=
  write_next (write_size m p size) p next

end FreeListB

/-- Model B of `struct FreeList`. -/
structure FreeListB where
  head : Option Nat
  start_address : Nat
  capacity : Nat
  heap_type : HeapType

/-- A model-B allocator state: the `FreeList` struct plus the managed memory. -/
structure HeapState where
  fl : FreeListB
  mem : Mem

namespace FreeListB

/-- `FreeList::init`: writes a single node `FreeListNode::new(capacity, None)`
at `start` (and nothing else — in particular no footer), head pointing at it. -/
def init (start capacity : Nat) (ht : HeapType) : HeapState :=
  { fl := { head := some start, start_address := start,
            capacity := capacity, heap_type := ht },
    mem := write_node mem_empty start capacity none }

/-- the first-fit scanning loop over memory -/
def find_first_go (m : Mem) (req : Nat) :
    Nat → Option Nat → Option Nat → Option (Option Nat × Option Nat)
  | 0, _, _ => none
  | _, none, _ => some (none, none)
  | fuel + 1, some p, prev => do
    let size ← read_size m p
    if req ≤ size then
      some (some p, prev)
    else do
      let nx ← read_next m p
      find_first_go m req fuel nx (some p)

/-- `FreeList::find_region_first_fit` over memory -/
def find_region_first_fit (s : HeapState) (req fuel : Nat) :
    Option (Option Nat × Option Nat) :=
  if s.fl.capacity ≤ req then some (none, none)
  else find_first_go s.mem req fuel s.fl.head none

/-- the next-fit scanning loop over memory (identical to first-fit in the
source) -/
def find_next_go (m : Mem) (req : Nat) :
    Nat → Option Nat → Option Nat → Option (Option Nat × Option Nat)
  | 0, _, _ => none
  | _, none, _ => some (none, none)
  | fuel + 1, some p, prev => do
    let size ← read_size m p
    if req ≤ size then
      some (some p, prev)
    else do
      let nx ← read_next m p
      find_next_go m req fuel nx (some p)

/-- `FreeList::find_region_next_fit` over memory -/
def find_region_next_fit (s : HeapState) (req fuel : Nat) :
    Option (Option Nat × Option Nat) :=
  if s.fl.capacity ≤ req then some (none, none)
  else find_next_go s.mem req fuel s.fl.head none

/-- the best-fit scanning loop over memory (rereads `(*best).size` from
memory at each comparison, as the source does) -/
def find_best_go (m : Mem) (req : Nat) :
    Nat → Option Nat → Option Nat → Option Nat → Option Nat →
    Option (Option Nat × Option Nat)
  | 0, _, _, _, _ => none
  | _, none, _, best, best_prev => some (best, best_prev)
  | fuel + 1, some p, prev, best, best_prev => do
    let size ← read_size m p
    let acc ←
      if req ≤ size then
        match best with
        | none => some (some p, prev)
        | some b => do
          let bsize ← read_size m b
          if size < bsize then some (some p, prev) else some (best, best_prev)
      else some (best, best_prev)
    let nx ← read_next m p
    find_best_go m req fuel nx (some p) acc.1 acc.2

/-- `FreeList::find_region_best_fit` over memory -/
def find_region_best_fit (s : HeapState) (req fuel : Nat) :
    Option (Option Nat × Option Nat) :=
  if s.fl.capacity ≤ req then some (none, none)
  else find_best_go s.mem req fuel s.fl.head none none none

/-- the worst-fit scanning loop over memory -/
def find_worst_go (m : Mem) (req : Nat) :
    Nat → Option Nat → Option Nat → Option Nat → Option Nat →
    Option (Option Nat × Option Nat)
  | 0, _, _, _, _ => none
  | _, none, _, worst, worst_prev => some (worst, worst_prev)
  | fuel + 1, some p, prev, worst, worst_prev => do
    let size ← read_size m p
    let acc ←
      if req ≤ size then
        match worst with
        | none => some (some p, prev)
        | some b => do
          let bsize ← read_size m b
          if bsize < size then some (some p, prev) else some (worst, worst_prev)
      else some (worst, worst_prev)
    let nx ← read_next m p
    find_worst_go m req fuel nx (some p) acc.1 acc.2

/-- `FreeList::find_region_worst_fit` over memory -/
def find_region_worst_fit (s : HeapState) (req fuel : Nat) :
    Option (Option Nat × Option Nat) :=
  if s.fl.capacity ≤ req then some (none, none)
  else find_worst_go s.mem req fuel s.fl.head none none none

/-- `FreeList::allocate` over memory, every read and write in source order.
Returns `some (some payload_ptr, s')` on success, `some (none, s)` on no-fit. -/
def allocate (s : HeapState) (requested_size fuel : Nat) :
    Option (Option Nat × HeapState) := do
  let total := total_size requested_size
  let (region, prev) ←
    match s.fl.heap_type with
    | HeapType.FirstFit => find_region_first_fit s total fuel
    | HeapType.BestFit => find_region_best_fit s total fuel
    | HeapType.WorstFit => find_region_worst_fit s total fuel
    | HeapType.NextFit => find_region_next_fit s total fuel
  match region with
  | none => some (none, s)
  | some node_ptr => do
    let nsize ← read_size s.mem node_ptr
    let (m1, head1) ←
      if wadd total block_overhead ≤ nsize then do
        -- split branch
        let remaining := wsub nsize total
        let new_node := wadd node_ptr total
        let nnext ← read_next s.mem node_ptr
        let m := write_node s.mem new_node remaining nnext
        let m := mwrite m (wsub (wadd new_node remaining) 8) remaining
        let mh ←
          match prev with
          | some p => some (write_next m p (some new_node), s.fl.head)
          | none => some (m, some new_node)
        some (write_size mh.1 node_ptr total, mh.2)
      else do
        -- use the entire block
        let nnext ← read_next s.mem node_ptr
        match prev with
        | some p => some (write_next s.mem p nnext, s.fl.head)
        | none => some (s.mem, nnext)
    let sz ← read_size m1 node_ptr
    let m2 := mwrite m1 (wsub (wadd node_ptr sz) 8) sz
    some (some (wadd node_ptr header_size),
      { fl := { s.fl with head := head1 }, mem := m2 })

/-- the sorted-insertion walk of `deallocate`
(`while let Some(curr) = current { if curr > node_ptr { break } ... }`);
returns `(current, prev)` at loop exit. -/
def dealloc_walk (m : Mem) (node_ptr : Nat) :
    Nat → Option Nat → Option Nat → Option (Option Nat × Option Nat)
  | 0, _, _ => none
  | _, none, prev => some (none, prev)
  | fuel + 1, some c, prev =>
    if node_ptr < c then some (some c, prev)
    else do
      let nx ← read_next m c
      dealloc_walk m node_ptr fuel nx (some c)

/-- `FreeList::deallocate` over memory, every read and write in source
order: recover the header, insert in address order, forward-coalesce with
the list successor, then backward-coalesce through the preceding footer. -/
def deallocate (s : HeapState) (address fuel : Nat) : Option HeapState := do
  let node_ptr := wsub address header_size
  let (current, prev) ← dealloc_walk s.mem node_ptr fuel s.fl.head none
  -- node.next = current
  let m := write_next s.mem node_ptr current
  let mh ←
    match prev with
    | some p => some (write_next m p (some node_ptr), s.fl.head)
    | none => some (m, some node_ptr)
  let m := mh.1
  -- forward coalescing
  let nnext ← read_next m node_ptr
  let m ←
    match nnext with
    | none => some m
    | some next_ptr => do
      let nsize ← read_size m node_ptr
      if wadd node_ptr nsize = next_ptr then do
        let xsize ← read_size m next_ptr
        let m := write_size m node_ptr (wadd nsize xsize)
        let xnext ← read_next m next_ptr
        let m := write_next m node_ptr xnext
        let nsize2 ← read_size m node_ptr
        some (mwrite m (wsub (wadd node_ptr nsize2) 8) nsize2)
      else some m
  -- backward coalescing
  let m ←
    if s.fl.start_address < node_ptr then do
      let prev_size ← m (wsub node_ptr 8)
      let prev_start := wsub node_ptr prev_size
      if s.fl.start_address ≤ prev_start then do
        let psize ← read_size m prev_start
        if wadd prev_start psize = node_ptr then do
          let nsize ← read_size m node_ptr
          let m := write_size m prev_start (wadd psize nsize)
          let nnext2 ← read_next m node_ptr
          let m := write_next m prev_start nnext2
          let psize2 ← read_size m prev_start
          some (mwrite m (wsub (wadd prev_start psize2) 8) psize2)
        else some m
      else some m
    else some m
  some { fl := { s.fl with head := mh.2 }, mem := m }

/-- the free chain from `head`, read from memory:
`(address, size)` of each node in `next` order. -/
def chain (m : Mem) : Nat → Option Nat → Option (List (Nat × Nat))
  | 0, _ => none
  | _, none => some []
  | fuel + 1, some p => do
    let size ← read_size m p
    let nx ← read_next m p
    let rest ← chain m fuel nx
    some ((p, size) :: rest)

/-- the free chain of a state -/
def free_chain (s : HeapState) (fuel : Nat) : Option (List (Nat × Nat)) :=
  chain s.mem fuel s.fl.head

end FreeListB

/-- `unsafe fn alloc(&self, layout: Layout)` of the `GlobalAlloc`
implementation: calls `allocate(layout.size())`, ignoring `layout.align()`
entirely; `None` is mapped to a null pointer (kept as `none` here). -/
def alloc_adapter (s : HeapState) (layout_size layout_align fuel : Nat) :
    Option (Option Nat × HeapState) :=
  FreeListB.allocate s layout_size fuel

/-! ## Concrete executions used to settle the invariant claims -/

/-- `init(0, 192, FirstFit)`, three 8-byte allocations (blocks
`[0,40)`, `[40,80)`, `[80,120)`, remainder `[120,192)` free), then
`deallocate` of the second and third pointers.  Returns the three payload
pointers and the final free chain. -/
def trace_abc : Option (Option Nat × Option Nat × Option Nat × List (Nat × Nat)) := do
  let s0 := FreeListB.init 0 192 HeapType.FirstFit
  let (p1, s1) ← FreeListB.allocate s0 8 9
  let (p2, s2) ← FreeListB.allocate s1 8 9
  let (p3, s3) ← FreeListB.allocate s2 8 9
  let s4 ← FreeListB.deallocate s3 64 9
  let s5 ← FreeListB.deallocate s4 104 9
  let c ← FreeListB.free_chain s5 9
  some (p1, p2, p3, c)

/-- `init(0, 128, FirstFit)`, two 8-byte allocations (blocks `[0,40)`,
`[40,80)`, remainder `[80,128)` free), then `deallocate` of both pointers
in reverse order of a full round trip (second first, then first).
Returns the two payload pointers and the final free chain. -/
def trace_ab : Option (Option Nat × Option Nat × List (Nat × Nat)) := do
  let s0 := FreeListB.init 0 128 HeapType.FirstFit
  let (p1, s1) ← FreeListB.allocate s0 8 9
  let (p2, s2) ← FreeListB.allocate s1 8 9
  let s3 ← FreeListB.deallocate s2 64 9
  let s4 ← FreeListB.deallocate s3 24 9
  let c ← FreeListB.free_chain s4 9
  some (p1, p2, c)

/-- the state of `trace_abc` after the first `deallocate`: returns the list
head, the header size of the free block at `40`, and the word in that
block's footer slot (byte address `40 + 40 - 8 = 72`). -/
def trace_abc_mid : Option (Option Nat × Option Nat × Option Nat) := do
  let s0 := FreeListB.init 0 192 HeapType.FirstFit
  let (_, s1) ← FreeListB.allocate s0 8 9
  let (_, s2) ← FreeListB.allocate s1 8 9
  let (_, s3) ← FreeListB.allocate s2 8 9
  let s4 ← FreeListB.deallocate s3 64 9
  some (s4.fl.head, FreeListB.read_size s4.mem 40, s4.mem 72)

/-! ## Definitions taken from the specification's words

The next definition follows the specification's description of Next-Fit
("first block with `size >= requested_size`, scanning from the cursor
position, wrapping once around to the head if the cursor reaches the tail
without success"), to be compared with the source's
`find_region_next_fit`. -/

/-- linear scan for the first node with `req ≤ size` -/
def scan_first (req : Nat) : List NodeA → Option NodeA
  | [] => none
  | n :: rest => if req ≤ n.2 then some n else scan_first req rest

/-- the Next-Fit search as the specification words it: scan from the cursor
position to the tail, then wrap once to the head and scan the part before
the cursor. -/
def next_fit_spec (fl : FreeListA) (cursor : Option Nat) (req : Nat) :
    Option NodeA :=
  if fl.capacity ≤ req then none
  else
    match cursor with
    | none => scan_first req fl.nodes
    | some c =>
      match scan_first req (fl.nodes.dropWhile (fun n => n.1 ≠ c)) with
      | some n => some n
      | none => scan_first req (fl.nodes.takeWhile (fun n => n.1 ≠ c))

/-! ## Helper notions for the list-level proofs -/

/-- the free-list address-order invariant: node addresses strictly increase
along the chain -/
def sorted_addr (l : List NodeA) : Prop :=
  l.Pairwise (fun a b => a.1 < b.1)

instance (l : List NodeA) : Decidable (sorted_addr l) :=
  inferInstanceAs (Decidable (l.Pairwise _))

/-- `first_some a b` is `a` unless `a = none`, in which case it is `b`
(used to relate a scanning loop's `prev` accumulator to list prefixes). -/
def first_some (a b : Option NodeA) : Option NodeA :=
  match a with
  | some x => some x
  | none => b

/-- the behaviour claimed for `allocate` once the search has produced a
candidate `n` whose chain position is `pre ++ n :: post`: split when the
candidate holds the total size plus another block's overhead (low part of
exactly the total size allocated, high remainder in the candidate's list
position, inheriting its successor), otherwise consume the block whole and
remove it from the list. -/
def splitting_spec (fl : FreeListA) (req : Nat) (n : NodeA)
    (pre post : List NodeA) : Prop :=
  (total_size req + block_overhead ≤ n.2 →
    (FreeListA.allocate fl req).1 =
      some (wadd n.1 header_size, (n.1, total_size req)) ∧
    (FreeListA.allocate fl req).2.nodes =
      pre ++ (wadd n.1 (total_size req), wsub n.2 (total_size req)) :: post) ∧
  (n.2 < total_size req + block_overhead →
    (FreeListA.allocate fl req).1 = some (wadd n.1 header_size, (n.1, n.2)) ∧
    (FreeListA.allocate fl req).2.nodes = pre ++ post)

/-- the behaviour claimed for the First-Fit search: the first block in
head-to-tail order with `size ≥ req`, together with its list predecessor
(`none` when the block is the head). -/
def first_fit_spec_prop (fl : FreeListA) (req : Nat) : Prop :=
  ((find_region_first_fit fl req).1 = none → ∀ m ∈ fl.nodes, m.2 < req) ∧
  (∀ n, (find_region_first_fit fl req).1 = some n →
    ∃ pre post, fl.nodes = pre ++ n :: post ∧ req ≤ n.2 ∧
      (∀ m ∈ pre, m.2 < req) ∧
      (find_region_first_fit fl req).2 = pre.getLast?)

/-- the behaviour claimed for the Best-Fit search: a block of the smallest
size `≥ req` over the whole list, the first such block on ties. -/
def best_fit_spec_prop (fl : FreeListA) (req : Nat) : Prop :=
  ((find_region_best_fit fl req).1 = none → ∀ m ∈ fl.nodes, m.2 < req) ∧
  (∀ n, (find_region_best_fit fl req).1 = some n →
    n ∈ fl.nodes ∧ req ≤ n.2 ∧ (∀ m ∈ fl.nodes, req ≤ m.2 → n.2 ≤ m.2) ∧
    ∃ pre post, fl.nodes = pre ++ n :: post ∧
      ∀ m ∈ pre, req ≤ m.2 → n.2 < m.2)

/-- a request whose size equals an existing block's size is satisfiable -/
def exact_fit_prop (fl : FreeListA) (req : Nat) : Prop :=
  ∀ n ∈ fl.nodes, n.2 = req →
    (find_region_first_fit fl req).1.isSome ∧
    (find_region_best_fit fl req).1.isSome

theorem first_some_assoc (a b c : Option NodeA) :
    first_some (first_some a b) c = first_some a (first_some b c) := by
  cases a <;> rfl

theorem first_some_none_right (a : Option NodeA) : first_some a none = a := by
  cases a <;> rfl

theorem getLast?_cons_first_some (m : NodeA) (l : List NodeA) :
    (m :: l).getLast? = first_some l.getLast? (some m) := by
  induction l generalizing m with
  | nil => rfl
  | cons b t ih =>
    rw [List.getLast?_cons_cons, ih b, first_some_assoc]
    rfl

theorem getLast?_none_nil (l : List NodeA) (h : l.getLast? = none) : l = [] := by
  cases l with
  | nil => rfl
  | cons m t =>
    rw [getLast?_cons_first_some] at h
    cases ht : t.getLast? <;> rw [ht] at h <;> simp [first_some] at h

theorem getLast?_some_append (l : List NodeA) (q : NodeA)
    (h : l.getLast? = some q) : ∃ l', l = l' ++ [q] := by
  induction l with
  | nil => simp at h
  | cons m t ih =>
    rw [getLast?_cons_first_some] at h
    cases ht : t.getLast? with
    | none =>
      rw [ht] at h
      simp only [first_some, Option.some.injEq] at h
      have hemp := getLast?_none_nil t ht
      exact ⟨[], by simp [hemp, h]⟩
    | some x =>
      rw [ht] at h
      simp only [first_some, Option.some.injEq] at h
      obtain ⟨t', rfl⟩ := ih (by rw [ht, h])
      exact ⟨m :: t', rfl⟩

/-! ### Characterization of the first-fit scanning loop -/

theorem find_go_first_none (req : Nat) :
    ∀ (l : List NodeA) (prevE p : Option NodeA),
      find_go_first req l prevE = (none, p) → (∀ m ∈ l, m.2 < req) ∧ p = none
  | [], _, _, h => by
    simp only [find_go_first, Prod.mk.injEq] at h
    exact ⟨by simp, h.2.symm⟩
  | n :: rest, prevE, p, h => by
    by_cases hn : req ≤ n.2
    · simp [find_go_first, hn] at h
    · simp only [find_go_first, if_neg hn] at h
      obtain ⟨hrest, hp⟩ := find_go_first_none req rest (some n) p h
      refine ⟨?_, hp⟩
      intro m hm
      rcases List.mem_cons.mp hm with rfl | hm
      · omega
      · exact hrest m hm

theorem find_go_first_some (req : Nat) :
    ∀ (l : List NodeA) (prevE : Option NodeA) (n : NodeA) (p : Option NodeA),
      find_go_first req l prevE = (some n, p) →
      ∃ pre post, l = pre ++ n :: post ∧ req ≤ n.2 ∧ (∀ m ∈ pre, m.2 < req) ∧
        p = first_some pre.getLast? prevE
  | [], _, _, _, h => by simp [find_go_first] at h
  | m :: rest, prevE, n, p, h => by
    by_cases hm : req ≤ m.2
    · simp only [find_go_first, if_pos hm, Prod.mk.injEq, Option.some.injEq] at h
      obtain ⟨rfl, rfl⟩ := h
      exact ⟨[], rest, rfl, hm, by simp, rfl⟩
    · simp only [find_go_first, if_neg hm] at h
      obtain ⟨pre, post, hl, hn, hpre, hp⟩ :=
        find_go_first_some req rest (some m) n p h
      refine ⟨m :: pre, post, by simp [hl], hn, ?_, ?_⟩
      · intro x hx
        rcases List.mem_cons.mp hx with rfl | hx
        · omega
        · exact hpre x hx
      · rw [hp, getLast?_cons_first_some, first_some_assoc]
        rfl

theorem find_go_next_eq_first (req : Nat) :
    ∀ (l : List NodeA) (prev : Option NodeA),
      find_go_next req l prev = find_go_first req l prev
  | [], _ => rfl
  | n :: rest, prev => by
    simp only [find_go_next, find_go_first]
    rw [find_go_next_eq_first req rest (some n)]

/-! ### Characterization of the best-fit scanning loop -/

theorem find_go_best_carried (req : Nat) :
    ∀ (l : List NodeA) (prevE bp : Option NodeA) (b : NodeA),
      ∃ n p, find_go_best req l prevE (some b) bp = (some n, p) ∧ n.2 ≤ b.2
  | [], prevE, bp, b => ⟨b, bp, rfl, Nat.le_refl _⟩
  | m :: rest, prevE, bp, b => by
    by_cases hm : req ≤ m.2
    · by_cases hlt : m.2 < b.2
      · obtain ⟨n, p, hgo, hle⟩ := find_go_best_carried req rest (some m) prevE m
        exact ⟨n, p, by simp [find_go_best, hm, hlt, hgo], by omega⟩
      · obtain ⟨n, p, hgo, hle⟩ := find_go_best_carried req rest (some m) bp b
        exact ⟨n, p, by simp [find_go_best, hm, hlt, hgo], hle⟩
    · obtain ⟨n, p, hgo, hle⟩ := find_go_best_carried req rest (some m) bp b
      exact ⟨n, p, by simp [find_go_best, hm, hgo], hle⟩

theorem find_go_best_covers (req : Nat) :
    ∀ (l : List NodeA) (prevE best bp : Option NodeA) (x : NodeA),
      x ∈ l → req ≤ x.2 →
      ∃ n p, find_go_best req l prevE best bp = (some n, p) ∧ n.2 ≤ x.2
  | [], _, _, _, x, hx, _ => by simp at hx
  | m :: rest, prevE, best, bp, x, hx, hreq => by
    rcases List.mem_cons.mp hx with rfl | hx
    · cases best with
      | none =>
        obtain ⟨n, p, hgo, hle⟩ := find_go_best_carried req rest (some x) prevE x
        exact ⟨n, p, by simp [find_go_best, hreq, hgo], hle⟩
      | some b =>
        by_cases hlt : x.2 < b.2
        · obtain ⟨n, p, hgo, hle⟩ := find_go_best_carried req rest (some x) prevE x
          exact ⟨n, p, by simp [find_go_best, hreq, hlt, hgo], hle⟩
        · obtain ⟨n, p, hgo, hle⟩ := find_go_best_carried req rest (some x) bp b
          exact ⟨n, p, by simp [find_go_best, hreq, hlt, hgo], by omega⟩
    · by_cases hm : req ≤ m.2
      · cases best with
        | none =>
          obtain ⟨n, p, hgo, hle⟩ :=
            find_go_best_covers req rest (some m) (some m) prevE x hx hreq
          exact ⟨n, p, by simp [find_go_best, hm, hgo], hle⟩
        | some b =>
          by_cases hlt : m.2 < b.2
          · obtain ⟨n, p, hgo, hle⟩ :=
              find_go_best_covers req rest (some m) (some m) prevE x hx hreq
            exact ⟨n, p, by simp [find_go_best, hm, hlt, hgo], hle⟩
          · obtain ⟨n, p, hgo, hle⟩ :=
              find_go_best_covers req rest (some m) (some b) bp x hx hreq
            exact ⟨n, p, by simp [find_go_best, hm, hlt, hgo], hle⟩
      · obtain ⟨n, p, hgo, hle⟩ :=
          find_go_best_covers req rest (some m) best bp x hx hreq
        exact ⟨n, p, by simp [find_go_best, hm, hgo], hle⟩

theorem find_go_best_none (req : Nat) :
    ∀ (l : List NodeA) (prevE best bp p : Option NodeA),
      find_go_best req l prevE best bp = (none, p) →
      best = none ∧ (∀ m ∈ l, m.2 < req)
  | [], _, best, bp, p, h => by
    simp only [find_go_best, Prod.mk.injEq] at h
    exact ⟨h.1, by simp⟩
  | m :: rest, prevE, best, bp, p, h => by
    by_cases hm : req ≤ m.2
    · exfalso
      cases best with
      | none =>
        simp only [find_go_best, if_pos hm] at h
        have := (find_go_best_none req rest (some m) (some m) prevE p h).1
        simp at this
      | some b =>
        by_cases hlt : m.2 < b.2
        · simp only [find_go_best, if_pos hm, if_pos hlt] at h
          have := (find_go_best_none req rest (some m) (some m) prevE p h).1
          simp at this
        · simp only [find_go_best, if_pos hm, if_neg hlt] at h
          have := (find_go_best_none req rest (some m) (some b) bp p h).1
          simp at this
    · simp only [find_go_best, if_neg hm] at h
      obtain ⟨hb, hrest⟩ := find_go_best_none req rest (some m) best bp p h
      refine ⟨hb, ?_⟩
      intro x hx
      rcases List.mem_cons.mp hx with rfl | hx
      · omega
      · exact hrest x hx

theorem find_go_best_some (req : Nat) :
    ∀ (l : List NodeA) (prevE best bp : Option NodeA) (n : NodeA)
      (p : Option NodeA),
      find_go_best req l prevE best bp = (some n, p) →
      (best = some n ∧ bp = p) ∨
      ∃ pre post, l = pre ++ n :: post ∧ req ≤ n.2 ∧
        p = first_some pre.getLast? prevE ∧
        (∀ x ∈ pre, req ≤ x.2 → n.2 < x.2) ∧
        (∀ b, best = some b → n.2 < b.2)
  | [], prevE, best, bp, n, p, h => by
    simp only [find_go_best, Prod.mk.injEq] at h
    exact Or.inl ⟨h.1, h.2⟩
  | m :: rest, prevE, best, bp, n, p, h => by
    by_cases hm : req ≤ m.2
    · cases best with
      | none =>
        simp only [find_go_best, if_pos hm] at h
        rcases find_go_best_some req rest (some m) (some m) prevE n p h with
          ⟨hbn, hbp⟩ | ⟨pre, post, hl, hn, hp, hstrict, hb⟩
        · obtain rfl := Option.some.injEq .. ▸ hbn
          exact Or.inr ⟨[], rest, by simp, hm, hbp.symm, by simp, by simp⟩
        · refine Or.inr ⟨m :: pre, post, by simp [hl], hn, ?_, ?_, by simp⟩
          · rw [hp, getLast?_cons_first_some, first_some_assoc]
            rfl
          · intro x hx hxreq
            rcases List.mem_cons.mp hx with rfl | hx
            · exact hb x rfl
            · exact hstrict x hx hxreq
      | some b =>
        by_cases hlt : m.2 < b.2
        · simp only [find_go_best, if_pos hm, if_pos hlt] at h
          rcases find_go_best_some req rest (some m) (some m) prevE n p h with
            ⟨hbn, hbp⟩ | ⟨pre, post, hl, hn, hp, hstrict, hbm⟩
          · obtain rfl := Option.some.injEq .. ▸ hbn
            refine Or.inr ⟨[], rest, by simp, hm, hbp.symm, by simp, ?_⟩
            intro b' hb'
            obtain rfl := Option.some.injEq .. ▸ hb'
            exact hlt
          · refine Or.inr ⟨m :: pre, post, by simp [hl], hn, ?_, ?_, ?_⟩
            · rw [hp, getLast?_cons_first_some, first_some_assoc]
              rfl
            · intro x hx hxreq
              rcases List.mem_cons.mp hx with rfl | hx
              · exact hbm x rfl
              · exact hstrict x hx hxreq
            · intro b' hb'
              obtain rfl := Option.some.injEq .. ▸ hb'
              have := hbm m rfl
              omega
        · simp only [find_go_best, if_pos hm, if_neg hlt] at h
          rcases find_go_best_some req rest (some m) (some b) bp n p h with
            ⟨hbn, hbp⟩ | ⟨pre, post, hl, hn, hp, hstrict, hbm⟩
          · exact Or.inl ⟨hbn, hbp⟩
          · refine Or.inr ⟨m :: pre, post, by simp [hl], hn, ?_, ?_, hbm⟩
            · rw [hp, getLast?_cons_first_some, first_some_assoc]
              rfl
            · intro x hx hxreq
              rcases List.mem_cons.mp hx with rfl | hx
              · have := hbm b rfl
                omega
              · exact hstrict x hx hxreq
    · simp only [find_go_best, if_neg hm] at h
      rcases find_go_best_some req rest (some m) best bp n p h with
        ⟨hbn, hbp⟩ | ⟨pre, post, hl, hn, hp, hstrict, hbm⟩
      · exact Or.inl ⟨hbn, hbp⟩
      · refine Or.inr ⟨m :: pre, post, by simp [hl], hn, ?_, ?_, hbm⟩
        · rw [hp, getLast?_cons_first_some, first_some_assoc]
          rfl
        · intro x hx hxreq
          rcases List.mem_cons.mp hx with rfl | hx
          · omega
          · exact hstrict x hx hxreq

/-! ### Decomposition for the worst-fit scanning loop -/

theorem find_go_worst_some (req : Nat) :
    ∀ (l : List NodeA) (prevE best bp : Option NodeA) (n : NodeA)
      (p : Option NodeA),
      find_go_worst req l prevE best bp = (some n, p) →
      (best = some n ∧ bp = p) ∨
      ∃ pre post, l = pre ++ n :: post ∧ p = first_some pre.getLast? prevE
  | [], prevE, best, bp, n, p, h => by
    simp only [find_go_worst, Prod.mk.injEq] at h
    exact Or.inl ⟨h.1, h.2⟩
  | m :: rest, prevE, best, bp, n, p, h => by
    have lift :
        (∃ pre post, rest = pre ++ n :: post ∧
            p = first_some pre.getLast? (some m)) →
        ∃ pre post, m :: rest = pre ++ n :: post ∧
            p = first_some pre.getLast? prevE := by
      rintro ⟨pre, post, hl, hp⟩
      refine ⟨m :: pre, post, by simp [hl], ?_⟩
      rw [hp, getLast?_cons_first_some, first_some_assoc]
      rfl
    by_cases hm : req ≤ m.2
    · cases best with
      | none =>
        simp only [find_go_worst, if_pos hm] at h
        rcases find_go_worst_some req rest (some m) (some m) prevE n p h with
          ⟨hbn, hbp⟩ | hdec
        · obtain rfl := Option.some.injEq .. ▸ hbn
          exact Or.inr ⟨[], rest, by simp, hbp.symm⟩
        · exact Or.inr (lift hdec)
      | some b =>
        by_cases hlt : b.2 < m.2
        · simp only [find_go_worst, if_pos hm, if_pos hlt] at h
          rcases find_go_worst_some req rest (some m) (some m) prevE n p h with
            ⟨hbn, hbp⟩ | hdec
          · obtain rfl := Option.some.injEq .. ▸ hbn
            exact Or.inr ⟨[], rest, by simp, hbp.symm⟩
          · exact Or.inr (lift hdec)
        · simp only [find_go_worst, if_pos hm, if_neg hlt] at h
          rcases find_go_worst_some req rest (some m) (some b) bp n p h with
            hacc | hdec
          · exact Or.inl hacc
          · exact Or.inr (lift hdec)
    · simp only [find_go_worst, if_neg hm] at h
      rcases find_go_worst_some req rest (some m) best bp n p h with hacc | hdec
      · exact Or.inl hacc
      · exact Or.inr (lift hdec)

/-! ### Decomposition of a successful search, for any strategy -/

theorem find_region_some_decomp (fl : FreeListA) (req : Nat) (n : NodeA)
    (p : Option NodeA) (h : find_region fl req = (some n, p)) :
    ∃ pre post, fl.nodes = pre ++ n :: post ∧ p = pre.getLast? := by
  obtain ⟨nodes, cap, ht⟩ := fl
  cases ht with
  | FirstFit =>
    simp only [find_region, find_region_first_fit] at h
    by_cases hc : cap ≤ req
    · simp [hc] at h
    · rw [if_neg hc] at h
      obtain ⟨pre, post, hl, _, _, hp⟩ := find_go_first_some req nodes none n p h
      exact ⟨pre, post, hl, by rw [hp, first_some_none_right]⟩
  | NextFit =>
    simp only [find_region, find_region_next_fit] at h
    by_cases hc : cap ≤ req
    · simp [hc] at h
    · rw [if_neg hc, find_go_next_eq_first] at h
      obtain ⟨pre, post, hl, _, _, hp⟩ := find_go_first_some req nodes none n p h
      exact ⟨pre, post, hl, by rw [hp, first_some_none_right]⟩
  | BestFit =>
    simp only [find_region, find_region_best_fit] at h
    by_cases hc : cap ≤ req
    · simp [hc] at h
    · rw [if_neg hc] at h
      rcases find_go_best_some req nodes none none none n p h with
        ⟨hbn, _⟩ | ⟨pre, post, hl, _, hp, _, _⟩
      · simp at hbn
      · exact ⟨pre, post, hl, by rw [hp, first_some_none_right]⟩
  | WorstFit =>
    simp only [find_region, find_region_worst_fit] at h
    by_cases hc : cap ≤ req
    · simp [hc] at h
    · rw [if_neg hc] at h
      rcases find_go_worst_some req nodes none none none n p h with
        ⟨hbn, _⟩ | ⟨pre, post, hl, hp⟩
      · simp at hbn
      · exact ⟨pre, post, hl, by rw [hp, first_some_none_right]⟩

/-! ### List surgery under the address-order invariant -/

theorem sorted_pre_lt (pre post : List NodeA) (n : NodeA)
    (h : sorted_addr (pre ++ n :: post)) : ∀ m ∈ pre, m.1 < n.1 := by
  rw [sorted_addr, List.pairwise_append] at h
  intro m hm
  exact h.2.2 m hm n (by simp)

theorem suffix_after_append (pre post : List NodeA) (n : NodeA)
    (hpre : ∀ m ∈ pre, m ≠ n) :
    suffix_after (pre ++ n :: post) n = post := by
  induction pre with
  | nil => simp [suffix_after]
  | cons m t ih =>
    have hmn : m ≠ n := hpre m (by simp)
    simp only [List.cons_append, suffix_after, if_neg hmn]
    exact ih (fun x hx => hpre x (by simp [hx]))

theorem set_succ_append (pre post : List NodeA) (q : NodeA) (tail : List NodeA)
    (hpre : ∀ m ∈ pre, m ≠ q) :
    set_succ (pre ++ q :: post) q tail = pre ++ q :: tail := by
  induction pre with
  | nil => simp [set_succ]
  | cons m t ih =>
    have hmq : m ≠ q := hpre m (by simp)
    simp only [List.cons_append, set_succ, if_neg hmq]
    exact congrArg (fun z => m :: z) (ih (fun x hx => hpre x (by simp [hx])))

theorem allocate_surgery (fl : FreeListA) (n : NodeA) (p : Option NodeA)
    (pre post : List NodeA) (hsort : sorted_addr fl.nodes)
    (hl : fl.nodes = pre ++ n :: post) (hp : p = pre.getLast?) :
    ∀ tail, relink fl.nodes p tail = pre ++ tail := by
  intro tail
  subst hp
  cases hgl : pre.getLast? with
  | none =>
    have hnil : pre = [] := getLast?_none_nil pre hgl
    simp [relink, hnil]
  | some q =>
    obtain ⟨pre', rfl⟩ := getLast?_some_append pre q hgl
    have hq_ne : ∀ m ∈ pre', m ≠ q := by
      intro m hm heq
      have hs := hl ▸ hsort
      rw [sorted_addr, List.pairwise_append] at hs
      have h1 := hs.1
      rw [List.pairwise_append] at h1
      have := h1.2.2 m hm q (by simp)
      rw [heq] at this
      omega
    simp only [relink]
    rw [hl]
    have hassoc : (pre' ++ [q]) ++ n :: post = pre' ++ q :: (n :: post) := by
      simp
    rw [hassoc, set_succ_append pre' (n :: post) q tail hq_ne]
    simp

/-- C3: For every allocation whose search finds a candidate free block: if
the candidate's size is at least the requested total size plus one more
block's header+footer overhead, `allocate` splits it so that the low part
of exactly the requested total size becomes the allocated block (header and
footer record `total_size req`) and the high remainder becomes a new free
block occupying the candidate's list position and inheriting the
candidate's successor; otherwise the entire candidate block is consumed
as-is (its recorded size `n.2` may exceed the request) and is removed from
the list. -/
theorem c3_allocate_splitting_policy (fl : FreeListA) (req : Nat)
    (n : NodeA) (p : Option NodeA)
    (hsort : sorted_addr fl.nodes)
    (hfind : find_region fl (total_size req) = (some n, p))
    (hbound : wadd (total_size req) block_overhead =
      total_size req + block_overhead) :
    ∃ pre post, fl.nodes = pre ++ n :: post ∧ p = pre.getLast? ∧
      splitting_spec fl req n pre post := by
  obtain ⟨pre, post, hl, hp⟩ :=
    find_region_some_decomp fl (total_size req) n p hfind
  have hpre_ne : ∀ m ∈ pre, m ≠ n := by
    intro m hm heq
    have := sorted_pre_lt pre post n (hl ▸ hsort) m hm
    rw [heq] at this
    omega
  have hsuffix : suffix_after fl.nodes n = post := by
    rw [hl]
    exact suffix_after_append pre post n hpre_ne
  have hsurg := allocate_surgery fl n p pre post hsort hl hp
  refine ⟨pre, post, hl, hp, ?_, ?_⟩
  · intro hsplit
    have hcond : wadd (total_size req) block_overhead ≤ n.2 := by
      rw [hbound]
      exact hsplit
    constructor
    · simp only [FreeListA.allocate, hfind]
      rw [if_pos hcond]
    · simp only [FreeListA.allocate, hfind]
      rw [if_pos hcond]
      simp only [hsuffix]
      exact hsurg _
  · intro hconsume
    have hcond : ¬ wadd (total_size req) block_overhead ≤ n.2 := by
      rw [hbound]
      omega
    constructor
    · simp only [FreeListA.allocate, hfind]
      rw [if_neg hcond]
    · simp only [FreeListA.allocate, hfind]
      rw [if_neg hcond]
      simp only [hsuffix]
      exact hsurg _

/-- witness for `c3_allocate_splitting_policy` on the list
`[(0,40), (48,96)]` with an 8-byte request (total size 40): the head block
fits exactly, the no-split branch consumes it whole. -/
theorem c3_allocate_splitting_policy_witness :
    sorted_addr [(0, 40), (48, 96)] ∧
    find_region ⟨[(0, 40), (48, 96)], 256, HeapType.FirstFit⟩ (total_size 8) =
      (some (0, 40), none) ∧
    wadd (total_size 8) block_overhead = total_size 8 + block_overhead ∧
    (∃ pre post, [((0 : Nat), (40 : Nat)), (48, 96)] = pre ++ (0, 40) :: post ∧
      (none : Option NodeA) = pre.getLast? ∧
      splitting_spec ⟨[(0, 40), (48, 96)], 256, HeapType.FirstFit⟩ 8 (0, 40)
        pre post) :=
  ⟨by decide, by decide, by decide,
    c3_allocate_splitting_policy ⟨[(0, 40), (48, 96)], 256, HeapType.FirstFit⟩
      8 (0, 40) none (by decide) (by decide) (by decide)⟩

/-! ### C4: the First-Fit and Best-Fit characterizations -/

theorem c4_first_fit_part (fl : FreeListA) (req : Nat)
    (h : req < fl.capacity) : first_fit_spec_prop fl req := by
  have hgo : find_region_first_fit fl req = find_go_first req fl.nodes none := by
    have hc : ¬ fl.capacity ≤ req := by omega
    simp [find_region_first_fit, hc]
  constructor
  · intro hnone
    rcases hfb : find_go_first req fl.nodes none with ⟨r, p⟩
    rw [hgo, hfb] at hnone
    change r = none at hnone
    subst hnone
    exact (find_go_first_none req fl.nodes none p hfb).1
  · intro n hsome
    rcases hfb : find_go_first req fl.nodes none with ⟨r, p⟩
    rw [hgo, hfb] at hsome
    change r = some n at hsome
    subst hsome
    obtain ⟨pre, post, hl, hn, hpre, hp⟩ :=
      find_go_first_some req fl.nodes none n p hfb
    refine ⟨pre, post, hl, hn, hpre, ?_⟩
    rw [hgo, hfb]
    change p = pre.getLast?
    rw [hp, first_some_none_right]

theorem c4_best_fit_part (fl : FreeListA) (req : Nat)
    (h : req < fl.capacity) : best_fit_spec_prop fl req := by
  have hgo : find_region_best_fit fl req =
      find_go_best req fl.nodes none none none := by
    have hc : ¬ fl.capacity ≤ req := by omega
    simp [find_region_best_fit, hc]
  constructor
  · intro hnone
    rcases hfb : find_go_best req fl.nodes none none none with ⟨r, p⟩
    rw [hgo, hfb] at hnone
    change r = none at hnone
    subst hnone
    exact (find_go_best_none req fl.nodes none none none p hfb).2
  · intro n hsome
    rcases hfb : find_go_best req fl.nodes none none none with ⟨r, p⟩
    rw [hgo, hfb] at hsome
    change r = some n at hsome
    subst hsome
    rcases find_go_best_some req fl.nodes none none none n p hfb with
      ⟨hbn, _⟩ | ⟨pre, post, hl, hn, _, hstrict, _⟩
    · simp at hbn
    · refine ⟨by rw [hl]; simp, hn, ?_, pre, post, hl, hstrict⟩
      intro m hm hreq
      obtain ⟨n', p', hgo', hle⟩ :=
        find_go_best_covers req fl.nodes none none none m hm hreq
      rw [hfb] at hgo'
      have h1 : some n = some n' := congrArg Prod.fst hgo'
      have h2 : n = n' := by injection h1
      rw [h2]
      exact hle

theorem c4_exact_fit_part (fl : FreeListA) (req : Nat)
    (h : req < fl.capacity) : exact_fit_prop fl req := by
  intro n hn hsize
  constructor
  · cases hr : (find_region_first_fit fl req).1 with
    | some _ => simp
    | none =>
      have := (c4_first_fit_part fl req h).1 hr n hn
      omega
  · cases hr : (find_region_best_fit fl req).1 with
    | some _ => simp
    | none =>
      have := (c4_best_fit_part fl req h).1 hr n hn
      omega

/-- C4 (amended): for a requested total size strictly below the capacity,
First-Fit returns the first block in head-to-tail order whose size is at
least the requested size, together with its list predecessor (`none` when
it is the head); Best-Fit returns a block of the smallest size at least the
requested size over the whole list, the first such block on ties; and a
request whose total size equals the size of an existing free block is
satisfiable.  (The original claim without the capacity bound is false: every
search returns no-fit whenever `capacity ≤ requested_size`, see the
counterexample.) -/
theorem c4_search_characterization (fl : FreeListA) (req : Nat)
    (h : req < fl.capacity) :
    first_fit_spec_prop fl req ∧ best_fit_spec_prop fl req ∧
      exact_fit_prop fl req :=
  ⟨c4_first_fit_part fl req h, c4_best_fit_part fl req h,
    c4_exact_fit_part fl req h⟩

/-- witness for `c4_search_characterization` at the list `[(0,16), (16,32)]`
with capacity 64 and request 32 -/
theorem c4_search_characterization_witness :
    32 < (64 : Nat) ∧
    (first_fit_spec_prop ⟨[(0, 16), (16, 32)], 64, HeapType.FirstFit⟩ 32 ∧
      best_fit_spec_prop ⟨[(0, 16), (16, 32)], 64, HeapType.FirstFit⟩ 32 ∧
      exact_fit_prop ⟨[(0, 16), (16, 32)], 64, HeapType.FirstFit⟩ 32) :=
  ⟨by decide,
    c4_search_characterization ⟨[(0, 16), (16, 32)], 64, HeapType.FirstFit⟩
      32 (by decide)⟩

/-- C4 counterexample: on a freshly initialised heap the single free block
has size equal to the capacity, and a request of exactly that total size is
rejected by the `requested_size >= self.capacity` guard of every search,
although a free block of exactly that size exists.  So "a request whose
total size equals the size of an existing free block is satisfiable by that
block" fails as stated. -/
theorem c4_equal_size_block_not_satisfiable :
    find_region_first_fit ⟨[(0, 64)], 64, HeapType.FirstFit⟩ 64 =
      (none, none) ∧
    find_region_best_fit ⟨[(0, 64)], 64, HeapType.BestFit⟩ 64 =
      (none, none) ∧
    ((0, 64) : NodeA) ∈ FreeListA.nodes ⟨[(0, 64)], 64, HeapType.FirstFit⟩ ∧
    (64 : Nat) ≤ 64 := by
  refine ⟨by decide, by decide, by simp, by decide⟩

/-! ### C5: Next-Fit -/

/-- C5 counterexample: on the chain `[(0,64), (64,64)]` with the (per claim)
cursor at the node `64` and a request of 40, the specification's
cursor-based Next-Fit picks the node at 64, but the source's
`find_region_next_fit` returns the head node at 0: the search does not scan
from the cursor position. -/
theorem c5_next_fit_ignores_cursor :
    (find_region_next_fit ⟨[(0, 64), (64, 64)], 256, HeapType.NextFit⟩ 40).1 =
      some (0, 64) ∧
    next_fit_spec ⟨[(0, 64), (64, 64)], 256, HeapType.NextFit⟩ (some 64) 40 =
      some (64, 64) ∧
    ((0, 64) : NodeA) ≠ (64, 64) := by
  refine ⟨by decide, by decide, by decide⟩

/-- C5 (amended): the source's Next-Fit search is identical to First-Fit:
it always scans from the head, and the `FreeList` state maintains no cursor
(the source comment itself notes it "behaves like FirstFit"). -/
theorem c5_next_fit_equals_first_fit (fl : FreeListA) (req : Nat) :
    find_region_next_fit fl req = find_region_first_fit fl req := by
  simp only [find_region_next_fit, find_region_first_fit,
    find_go_next_eq_first]

/-! ### C6: init -/

/-- C6 counterexample: `init(5, 100, FirstFit)` writes the single free node
at the unaligned address 5 with size 100 (not a multiple of `ALIGN`), and
`init(0, 8, FirstFit)` succeeds although the capacity 8 is below one
block's header+footer overhead: `init` neither rounds nor checks. -/
theorem c6_init_does_not_align :
    (FreeListB.init 5 100 HeapType.FirstFit).fl.head = some 5 ∧
    FreeListB.read_size (FreeListB.init 5 100 HeapType.FirstFit).mem 5 =
      some 100 ∧
    5 % ALIGN ≠ 0 ∧ 100 % ALIGN ≠ 0 ∧
    (FreeListB.init 0 8 HeapType.FirstFit).fl.head = some 0 ∧
    8 < block_overhead := by
  refine ⟨rfl, by decide, by decide, by decide, rfl, by decide⟩

/-- C6 (amended): `init(start, capacity, strategy)` writes a single free
block at exactly the given `start` whose header records exactly the given
`capacity` with no successor, and the returned free list's head points at
that block; no alignment rounding of `start` or `capacity` and no
minimum-capacity check is performed. -/
theorem c6_init_single_block (start capacity : Nat) (ht : HeapType) :
    (FreeListB.init start capacity ht).fl.head = some start ∧
    (FreeListB.init start capacity ht).fl.start_address = start ∧
    (FreeListB.init start capacity ht).fl.capacity = capacity ∧
    FreeListB.read_size (FreeListB.init start capacity ht).mem start =
      some capacity ∧
    FreeListB.read_next (FreeListB.init start capacity ht).mem start =
      some none := by
  refine ⟨rfl, rfl, rfl, ?_, ?_⟩
  · show mwrite (mwrite mem_empty start capacity) (start + 8) 0 start =
      some capacity
    unfold mwrite
    rw [if_neg (by omega : ¬ start = start + 8), if_pos rfl]
  · show FreeListB.read_next
      (mwrite (mwrite mem_empty start capacity) (start + 8) 0) start =
      some none
    unfold FreeListB.read_next mwrite
    rw [if_pos rfl]

/-! ### C1, C2, C7: the coalescing invariants, evaluated on the failing runs

The backward-coalescing step of `deallocate` trusts the footer preceding
the freed block, but allocated blocks also carry valid footers and there is
no free/allocated flag, so a freed block whose physical predecessor is a
live *allocated* block is merged into it, corrupting that block's header.
The following theorems evaluate model B on concrete call sequences that
exhibit the consequences. -/

/-- C1: after `init(0,192,FirstFit)`, three 8-byte allocations (pointers
24, 64, 104 for blocks `[0,40)`, `[40,80)`, `[80,120)`), and deallocation
of pointers 64 and 104, the free list holds the nodes `(40, 40)` and
`(80, 112)`: two free blocks whose byte ranges touch (`40 + 40 = 80`) yet
were not coalesced — the strict-address-order-plus-no-adjacency invariant
claimed for every call sequence is violated. -/
theorem c1_adjacent_free_blocks_unmerged :
    trace_abc = some (some 24, some 64, some 104, [(40, 40), (80, 112)]) ∧
    40 + 40 = 80 := by
  exact ⟨by decide, rfl⟩

/-- C2: after `init(0,128,FirstFit)`, two 8-byte allocations (pointers 24
and 64), and deallocation of *both* returned pointers (64 first, then 24),
the free list holds two overlapping nodes `(0, 128)` and `(40, 88)` instead
of the single free block of size 128 the claim requires for every
deallocation order. -/
theorem c2_round_trip_not_restored :
    trace_ab = some (some 24, some 64, [(0, 128), (40, 88)]) ∧
    [((0 : Nat), (128 : Nat)), (40, 88)].length = 2 := by
  exact ⟨by decide, rfl⟩

/-- C7: the header/footer agreement invariant fails in reachable states.
After `init(0,192,FirstFit)`, three 8-byte allocations and deallocation of
the middle pointer 64, the free block at address 40 — the head of the free
list — records size 40 in its header while the word in its footer slot
(byte address `40 + 40 - 8 = 72`) is 80, overwritten by the backward
coalescing that merged the freed block into its *allocated* neighbour.
Moreover the single free block produced by `init` never gets a footer at
all: after `init(0,64,FirstFit)` the footer slot at `64 - 8 = 56` is
uninitialised. -/
theorem c7_header_footer_mismatch :
    trace_abc_mid = some (some 40, some 40, some 80) ∧
    (40 : Nat) ≠ 80 ∧
    (FreeListB.init 0 64 HeapType.FirstFit).mem 56 = none := by
  exact ⟨by decide, by decide, rfl⟩

/-! ### C8: overflow in the size computation -/

theorem land_small_mask (r : Nat) (hr : r < 8) :
    r &&& (18446744073709551616 - 8) = 0 := by
  interval_cases r <;> decide

/-- C8 counterexample: for `requested_size = 2^64 - 1` the computation
`size + ALIGN - 1` overflows the machine word (`W ≤ (W-1) + 7`), wraps to
6, and `align_up` yields 0, so the total size becomes just the 32-byte
overhead — and on a fresh 64-byte heap `allocate(2^64 - 1)` *succeeds*
with pointer 24 instead of returning the no-fit failure the claim
requires for overflowing arithmetic. -/
theorem c8_overflow_wraps_and_allocates :
    W ≤ (W - 1) + (ALIGN - 1) ∧
    align_up (W - 1) = 0 ∧
    total_size (W - 1) = block_overhead ∧
    (FreeListB.allocate (FreeListB.init 0 64 HeapType.FirstFit) (W - 1) 9).map
      (fun x => x.1) = some (some 24) := by
  refine ⟨by decide, by decide, by decide, by decide⟩

/-- C8 (amended): `allocate` computes the total block size as the payload
rounded up to `ALIGN` plus the header+footer overhead using wrapping
(mod `2^64`) machine arithmetic, with no overflow check: for every
requested size in the top `ALIGN - 1` values of the machine word the
aligned payload wraps to zero and the computed total size is exactly
`block_overhead`, so `allocate` proceeds with that wrapped small size
rather than failing. -/
theorem c8_total_size_wraps_to_overhead (size : Nat)
    (h1 : W - (ALIGN - 1) ≤ size) (h2 : size < W) :
    total_size size = block_overhead := by
  have hW : W = 18446744073709551616 := by norm_num [W]
  unfold total_size align_up wadd block_overhead header_size footer_size ALIGN
  unfold W at h1 h2
  unfold ALIGN at h1
  norm_num at h1 h2
  rw [hW]
  have hr : (size + (8 - 1)) % 18446744073709551616 =
      size + 7 - 18446744073709551616 := by omega
  rw [hr]
  rw [land_small_mask (size + 7 - 18446744073709551616) (by omega)]

/-- witness for `c8_total_size_wraps_to_overhead` at `size = 2^64 - 1` -/
theorem c8_total_size_wraps_to_overhead_witness :
    W - (ALIGN - 1) ≤ W - 1 ∧ W - 1 < W ∧
    total_size (W - 1) = block_overhead :=
  ⟨by decide, by decide,
    c8_total_size_wraps_to_overhead (W - 1) (by decide) (by decide)⟩

/-! ### C9: requested alignment -/

/-- C9 counterexample: `alloc` with `layout = (size 8, align 16)` on a fresh
aligned heap does not fail — it returns the pointer 24, and `24 % 16 = 8`,
so the returned pointer does not satisfy the requested 16-byte alignment.
The claim that an alignment above `ALIGN` is rejected is false. -/
theorem c9_alignment_not_rejected :
    (alloc_adapter (FreeListB.init 0 128 HeapType.FirstFit) 8 16 9).map
      (fun x => x.1) = some (some 24) ∧
    24 % 16 ≠ 0 := by
  exact ⟨by decide, by decide⟩

/-- C9 (amended): the `GlobalAlloc` adapter ignores the requested alignment
entirely: `alloc` forwards only `layout.size()` to `allocate`, so its
result — pointer and state alike — is identical for every requested
alignment; alignments greater than `ALIGN` are neither rejected nor
honoured. -/
theorem c9_adapter_ignores_alignment (s : HeapState)
    (layout_size a b fuel : Nat) :
    alloc_adapter s layout_size a fuel = alloc_adapter s layout_size b fuel :=
  rfl

/-! ### C10: zero-size requests -/

/-- C10 counterexample: `align_up 0 = 0`, so a requested size of zero is
*not* treated as a minimum 1-byte payload: the total block size is exactly
the 32-byte overhead, reserving zero payload bytes (not at least `ALIGN`).
On a fresh 64-byte heap `allocate(0)` succeeds with pointer 24 and the
allocated block's header records 32 = `block_overhead`. -/
theorem c10_zero_payload_not_reserved :
    align_up 0 = 0 ∧
    total_size 0 = block_overhead ∧
    (FreeListB.allocate (FreeListB.init 0 64 HeapType.FirstFit) 0 9).map
      (fun x => (x.1, FreeListB.read_size x.2.mem 0)) =
      some (some 24, some 32) ∧
    ¬ ALIGN ≤ total_size 0 - block_overhead := by
  refine ⟨by decide, by decide, by decide, by decide⟩

/-- C10 (amended): `allocate` treats a requested size of zero as a *zero*
byte payload: the aligned payload is 0 and the computed total block size is
exactly `block_overhead`; `allocate(0)` succeeds (returning a pointer)
precisely when the configured search finds a block for that total size. -/
theorem c10_zero_size_allocation (fl : FreeListA) :
    total_size 0 = block_overhead ∧
    ((FreeListA.allocate fl 0).1.isSome ↔
      (find_region fl (total_size 0)).1.isSome) := by
  refine ⟨by decide, ?_⟩
  rcases hfr : find_region fl (total_size 0) with ⟨r, p⟩
  cases r with
  | none => simp [FreeListA.allocate, hfr]
  | some n =>
    simp only [FreeListA.allocate, hfr]
    by_cases hc : wadd (total_size 0) block_overhead ≤ n.2 <;> simp [hc]

end Heap
